import Mathlib

/-!
Verification development for the `dns-records` repository.

The Python sources are embedded shallowly: Python `str` becomes `List Char`
(named `Str`), record dictionaries `{"fqdn": ..., "ipv4": ...}` become the
`Record` structure, Python sets are modelled by membership in the mapped
list, raising an exception becomes an `Except` error value, and a provider
call that may raise is modelled by a boolean-valued function (`true` means
the call returned, `false` means it raised and the exception was caught).
-/

set_option autoImplicit false

namespace DnsRecords

/-- Python `str`, embedded as its list of characters. -/
abbrev Str := List Char

/-- One DNS record row: `{"fqdn": ..., "ipv4": ...}` as it flows through
`record_manager.py`. -/
structure Record where
  fqdn : Str
  ipv4 : Str
deriving DecidableEq, Repr

/-- The dictionary returned by `RecordManager.analyze_changes`
(`record_manager.py` lines 102-108). -/
structure ChangeSet where
  creates : List Record
  updates : List Record
  deletes : List Record
  no_changes : List Record
  total_changes : Nat
deriving DecidableEq, Repr

deriving instance DecidableEq for Except

/-- Python `s.endswith(suffix)` on strings. -/
def pyEndsWith (s suffix : Str) : Bool :=
  decide (suffix <:+ s)

/-- `RecordManager._normalize_fqdn` (`record_manager.py` lines 124-126):
`fqdn.rstrip('.') if fqdn else fqdn` — strips every trailing `'.'`; the
empty string (falsy) is returned as is. -/
def _normalize_fqdn (fqdn : Str) : Str :=
  if fqdn.isEmpty then fqdn
  else ((fqdn.reverse.dropWhile (fun c => c == '.')).reverse)

/-- `RecordManager._records_to_set` (`record_manager.py` lines 128-130):
the set of `(normalized fqdn, ipv4)` pairs, modelled as the mapped list
(set membership is list membership). -/
def _records_to_set (records : List Record) : List (Str × Str) :=
  records.map (fun record => (_normalize_fqdn record.fqdn, record.ipv4))

/-- `RecordManager._find_existing_record` (`record_manager.py` lines
132-142): first current record whose normalized fqdn matches. -/
def _find_existing_record (current_records : List Record) (fqdn : Str) :
    Option Record :=
  current_records.find?
    (fun record => decide (_normalize_fqdn record.fqdn = _normalize_fqdn fqdn))

/-- `RecordManager._fqdn_in_desired` (`record_manager.py` lines 144-147). -/
def _fqdn_in_desired (fqdn : Str) (desired_records : List Record) : Bool :=
  desired_records.any
    (fun record => decide (_normalize_fqdn record.fqdn = _normalize_fqdn fqdn))

/-- `RecordManager._is_in_zone` (`record_manager.py` lines 149-153):
`normalized_fqdn.endswith(normalized_zone) or normalized_fqdn == normalized_zone`. -/
def _is_in_zone (fqdn zone : Str) : Bool :=
  pyEndsWith (_normalize_fqdn fqdn) (_normalize_fqdn zone)
    || decide (_normalize_fqdn fqdn = _normalize_fqdn zone)

/-- `RecordManager._validate_zone_safety` (`record_manager.py` lines
155-176): raises `ValueError(f"FQDN '{record['fqdn']}' is not within zone ...")`
for the first desired record outside the zone.  The raised error is modelled
by the offending fqdn; the second loop over `current_records` only logs. -/
def _validate_zone_safety (desired_records : List Record) (zone : Str) :
    Option Str :=
  (desired_records.find? (fun record => !(_is_in_zone record.fqdn zone))).map
    (fun record => record.fqdn)

/-- The membership probe of `analyze_changes` line 62: the raw key
`(desired["fqdn"], desired["ipv4"])` built on line 60 is looked up in the
set of normalized current pairs. -/
def desired_key_in_current (current_records : List Record)
    (desired : Record) : Bool :=
  decide ((desired.fqdn, desired.ipv4) ∈ _records_to_set current_records)

/-- The `creates` branch of the desired-record loop
(`record_manager.py` lines 74-79): key absent and no current record shares
the normalized fqdn. -/
def createsOf (current_records desired_records : List Record) : List Record :=
  desired_records.filter (fun desired =>
    !desired_key_in_current current_records desired
      && !(_find_existing_record current_records desired.fqdn).isSome)

/-- The `updates` branch of the desired-record loop
(`record_manager.py` lines 68-73): key absent but an existing record with
the same normalized fqdn was found. -/
def updatesOf (current_records desired_records : List Record) : List Record :=
  desired_records.filter (fun desired =>
    !desired_key_in_current current_records desired
      && (_find_existing_record current_records desired.fqdn).isSome)

/-- The `no_changes` branch of the desired-record loop
(`record_manager.py` lines 80-83): raw key present in the current set. -/
def no_changesOf (current_records desired_records : List Record) :
    List Record :=
  desired_records.filter (fun desired =>
    desired_key_in_current current_records desired)

/-- The delete loop (`record_manager.py` lines 85-97): keep in-zone current
records whose raw key is not in the desired set and whose fqdn is absent
from desired. -/
def deletesOf (current_records desired_records : List Record) (zone : Str) :
    List Record :=
  current_records.filter (fun current =>
    _is_in_zone current.fqdn zone
      && !decide ((current.fqdn, current.ipv4) ∈
            _records_to_set desired_records)
      && !(_fqdn_in_desired current.fqdn desired_records))

/-- `RecordManager.analyze_changes` (`record_manager.py` lines 21-115) on a
list-shaped `current_records` input.  The single loop over
`desired_records` that appends each record to exactly one of
`creates`/`updates`/`no_changes` is embedded as three order-preserving
filters with the loop's branch conditions (`createsOf`, `updatesOf`,
`no_changesOf`); the delete loop is `deletesOf`.  `total_changes` is
computed on line 100 as the sum of the three change-list lengths. -/
def analyze_changes (current_records desired_records : List Record)
    (zone : Str) : Except Str ChangeSet :=
  match _validate_zone_safety desired_records zone with
  | some bad_fqdn => .error bad_fqdn
  | none =>
    let creates := createsOf current_records desired_records
    let updates := updatesOf current_records desired_records
    let no_changes := no_changesOf current_records desired_records
    let deletes := deletesOf current_records desired_records zone
    .ok
      { creates := creates
        updates := updates
        deletes := deletes
        no_changes := no_changes
        total_changes := creates.length + updates.length + deletes.length }

/-- Python `str.isspace` / regex `\s` membership, for the ASCII whitespace
characters that occur in CSV fields and zone files (the Python originals
also accept some further Unicode whitespace, which never occurs in the
inputs modelled here). -/
def pyIsSpace (c : Char) : Bool :=
  c == ' ' || c == '\t' || c == '\n' || c == '\r' || c == '\x0b' || c == '\x0c'

/-- Python `s.strip()`: drop leading and trailing whitespace. -/
def pyStrip (s : Str) : Str :=
  ((s.dropWhile pyIsSpace).reverse.dropWhile pyIsSpace).reverse

/-- One validation error appended by
`RecordManager.validate_csv_structure` (`record_manager.py` lines
234-259).  The Python code appends formatted strings; they are modelled by
their discriminating content (row number, offending fqdn, count).  The
"Missing required fields" branch checks `"fqdn" not in record`, which is
unrepresentable for the total `Record` structure and therefore has no
constructor here. -/
inductive CsvError where
  | emptyValue (row : Nat)
  | duplicateFqdn (row : Nat) (fqdn : Str) (count : Nat)
deriving DecidableEq, Repr

/-- The body of the `validate_csv_structure` loop for one record at row
`row`: `None` when the row produces no error. -/
def rowError (csv_records : List Record) (row : Nat) (record : Record) :
    Option CsvError :=
  if (pyStrip record.fqdn).isEmpty || (pyStrip record.ipv4).isEmpty then
    some (.emptyValue row)
  else
    let normalized_fqdn := _normalize_fqdn record.fqdn
    let fqdn_count := (csv_records.filter (fun r =>
      decide (_normalize_fqdn r.fqdn = normalized_fqdn))).length
    if fqdn_count > 1 then some (.duplicateFqdn row record.fqdn fqdn_count)
    else none

/-- The `enumerate(csv_records, start=2)` loop of `validate_csv_structure`,
with the full record list in scope for the duplicate count. -/
def validateAux (csv_records : List Record) (row : Nat) :
    List Record → List CsvError
  | [] => []
  | record :: rest =>
    (rowError csv_records row record).toList
      ++ validateAux csv_records (row + 1) rest

/-- `RecordManager.validate_csv_structure` (`record_manager.py` lines
234-259): row numbering starts at 2 to account for the CSV header. -/
def validate_csv_structure (csv_records : List Record) : List CsvError :=
  validateAux csv_records 2 csv_records

/-- The provider seen by `DNSManager._apply_changes`: each call either
returns (`true`) or raises an exception that the apply loop catches
(`false`). -/
structure DnsClient where
  create_record : Str → Record → Bool
  update_record : Str → Record → Bool
  delete_record : Str → Record → Bool

/-- One of the three `for` loops of `DNSManager._apply_changes`
(`dns_manager.py` lines 268-298): every record is attempted;
`success_count` is incremented exactly when the provider call returns. -/
def applyLoop (op : Str → Record → Bool) (zone : Str)
    (records : List Record) (success_count : Nat) : Nat :=
  records.foldl (fun count record =>
    if op zone record then count + 1 else count) success_count

/-- `DNSManager._apply_changes` (`dns_manager.py` lines 255-303): runs the
creates, then the updates, then the deletes, accumulating
`success_count`, and returns `success_count == total_changes` (line 303),
where `total_changes` is read from the change dictionary (line 258). -/
def _apply_changes (client : DnsClient) (changes : ChangeSet) (zone : Str) :
    Bool :=
  let count_after_creates :=
    applyLoop client.create_record zone changes.creates 0
  let count_after_updates :=
    applyLoop client.update_record zone changes.updates count_after_creates
  let count_after_deletes :=
    applyLoop client.delete_record zone changes.deletes count_after_updates
  count_after_deletes == changes.total_changes

/-- A single provider operation as attempted by `_apply_changes`. -/
inductive DnsOp where
  | create (record : Record)
  | update (record : Record)
  | delete (record : Record)
deriving DecidableEq, Repr

/-- The sequence of provider operations `_apply_changes` attempts, in its
fixed order: all creates, then all updates, then all deletes. -/
def attempted_ops (changes : ChangeSet) : List DnsOp :=
  changes.creates.map DnsOp.create
    ++ changes.updates.map DnsOp.update
    ++ changes.deletes.map DnsOp.delete

/-- Dispatch of one attempted operation to the provider call used for it. -/
def execOp (client : DnsClient) (zone : Str) : DnsOp → Bool
  | .create record => client.create_record zone record
  | .update record => client.update_record zone record
  | .delete record => client.delete_record zone record

/-- ASCII decimal digit, regex `\d` (the Python original also accepts
Unicode digits, which do not occur in zone-file serials). -/
def isAsciiDigit (c : Char) : Bool :=
  '0' ≤ c && c ≤ '9'

/-- The literal tail `"; serial"` of the pattern
`(\s+)(\d{10})(\s+; serial)` in `BINDProvider._increment_serial`
(`dns_client.py` line 436). -/
def serialComment : Str :=
  [';', ' ', 's', 'e', 'r', 'i', 'a', 'l']

/-- The three capture groups of one match of
`(\s+)(\d{10})(\s+; serial)`: `g1` is group 1 (the leading whitespace
run), `digits` is group 2 (exactly ten digits), `g3` is group 3 (the
whitespace run followed by `"; serial"`). -/
structure SerialMatch where
  g1 : Str
  digits : Str
  g3 : Str
deriving DecidableEq, Repr

/-- Matching `(\s+)(\d{10})(\s+; serial)` anchored at the start of `cs`,
returning the groups and the remainder after the match.  Backtracking
never helps this pattern: a shorter `\s+` leaves a whitespace character
where a digit (resp. `';'`) is required, so each `\s+` must consume its
maximal run, and `\d{10}` succeeds exactly when the following digit run
has length ten. -/
def matchSerialAt (cs : Str) : Option (SerialMatch × Str) :=
  let g1 := cs.takeWhile pyIsSpace
  let rest1 := cs.dropWhile pyIsSpace
  if g1.isEmpty then none
  else
    let ds := rest1.takeWhile isAsciiDigit
    if ds.length = 10 then
      let rest2 := rest1.dropWhile isAsciiDigit
      let ws2 := rest2.takeWhile pyIsSpace
      if ws2.isEmpty then none
      else
        let rest3 := rest2.dropWhile pyIsSpace
        if rest3.take serialComment.length = serialComment then
          some (⟨g1, ds, ws2 ++ serialComment⟩,
            rest3.drop serialComment.length)
        else none
    else none

/-- `re.search` for the serial pattern: scan the start positions left to
right, returning the text before the first match, the match's groups, and
the remainder after it. -/
def findSerial : Str → Option (Str × SerialMatch × Str)
  | [] =>
    (matchSerialAt []).map (fun found => ([], found.1, found.2))
  | c :: rest =>
    match matchSerialAt (c :: rest) with
    | some (m, after) => some ([], m, after)
    | none =>
      (findSerial rest).map (fun found =>
        (c :: found.1, found.2.1, found.2.2))

/-- `re.sub` for the serial pattern with the constant replacement
`\g<1>{new_serial}\g<3>`: replace every non-overlapping match, scanning
left to right.  The recursion is fuelled by the content length: every
match consumes at least one character (its groups are non-empty), so
`content.length` rounds always suffice and the fuel-exhausted branch, which
returns the remaining text unchanged just as the no-match branch does, is
never the deciding one. -/
def subSerialFuel (new_serial : Str) : Nat → Str → Str
  | 0, cs => cs
  | fuel + 1, cs =>
    match findSerial cs with
    | none => cs
    | some (found_pre, m, rest) =>
      found_pre ++ m.g1 ++ new_serial ++ m.g3
        ++ subSerialFuel new_serial fuel rest

/-- Python `int(...)` on a string of decimal digits. -/
def digitsToNat (ds : Str) : Nat :=
  ds.foldl (fun n c => n * 10 + (c.toNat - '0'.toNat)) 0

/-- `BINDProvider._increment_serial` (`dns_client.py` lines 431-445):
search for `(\s+)(\d{10})(\s+; serial)`; when absent, return the content
unchanged; when present, take `new_serial := int(group 2) + 1` of the
first match and substitute every match with
`\g<1>{new_serial}\g<3>` (Python `str(new_serial)` is `Nat.toDigits 10`). -/
def _increment_serial (content : Str) : Str :=
  match findSerial content with
  | none => content
  | some (_, m, _) =>
    subSerialFuel (Nat.toDigits 10 (digitsToNat m.digits + 1))
      content.length content

end DnsRecords

namespace DnsRecords

theorem dropWhile_self_idem (p : Char → Bool) (l : List Char) :
    (l.dropWhile p).dropWhile p = l.dropWhile p := by
  induction l with
  | nil => rfl
  | cons a l ih =>
    by_cases h : p a = true
    · simpa [List.dropWhile_cons, h] using ih
    · simp [List.dropWhile_cons, h]

theorem normalize_idem (s : Str) :
    _normalize_fqdn (_normalize_fqdn s) = _normalize_fqdn s := by
  unfold _normalize_fqdn
  by_cases hs : s.isEmpty
  · simp [hs]
  · simp only [hs, if_false, Bool.false_eq_true]
    set t := (s.reverse.dropWhile (fun c => c == '.')).reverse with ht
    by_cases h : t.isEmpty
    · simp [h]
    · simp only [h, if_false, Bool.false_eq_true]
      rw [ht, List.reverse_reverse, dropWhile_self_idem]

theorem mem_records_to_set (records : List Record) (key : Str × Str) :
    key ∈ _records_to_set records ↔
      ∃ r ∈ records, _normalize_fqdn r.fqdn = key.1 ∧ r.ipv4 = key.2 := by
  cases key with
  | mk f i => simp [_records_to_set, List.mem_map, Prod.ext_iff]

theorem find_existing_isSome_iff (current : List Record) (fqdn : Str) :
    (_find_existing_record current fqdn).isSome = true ↔
      ∃ r ∈ current, _normalize_fqdn r.fqdn = _normalize_fqdn fqdn := by
  simp [_find_existing_record, List.find?_isSome]

theorem fqdn_in_desired_iff (fqdn : Str) (desired : List Record) :
    _fqdn_in_desired fqdn desired = true ↔
      ∃ r ∈ desired, _normalize_fqdn r.fqdn = _normalize_fqdn fqdn := by
  simp [_fqdn_in_desired, List.any_eq_true]

theorem desired_key_in_current_iff (current : List Record) (d : Record) :
    desired_key_in_current current d = true ↔
      ∃ r ∈ current, _normalize_fqdn r.fqdn = d.fqdn ∧ r.ipv4 = d.ipv4 := by
  simp [desired_key_in_current, mem_records_to_set]

theorem key_in_implies_shares (current : List Record) (d : Record)
    (h : desired_key_in_current current d = true) :
    (_find_existing_record current d.fqdn).isSome = true := by
  rcases (desired_key_in_current_iff current d).mp h with ⟨r, hr, h1, _⟩
  refine (find_existing_isSome_iff current d.fqdn).mpr ⟨r, hr, ?_⟩
  rw [h1, ← h1, normalize_idem, h1]

theorem validate_none_iff (desired : List Record) (zone : Str) :
    _validate_zone_safety desired zone = none ↔
      ∀ r ∈ desired, _is_in_zone r.fqdn zone = true := by
  simp [_validate_zone_safety, List.find?_eq_none]

theorem validate_some_spec (desired : List Record) (zone : Str) (e : Str)
    (h : _validate_zone_safety desired zone = some e) :
    ∃ r ∈ desired, r.fqdn = e ∧ _is_in_zone r.fqdn zone = false := by
  unfold _validate_zone_safety at h
  cases hf : desired.find? (fun record => !(_is_in_zone record.fqdn zone)) with
  | none => rw [hf] at h; simp at h
  | some r =>
    rw [hf] at h
    simp at h
    refine ⟨r, List.mem_of_find?_eq_some hf, h, ?_⟩
    have := List.find?_some hf
    simpa using this

theorem analyze_changes_ok_iff (c d : List Record) (z : Str)
    (cs : ChangeSet) :
    analyze_changes c d z = .ok cs ↔
      _validate_zone_safety d z = none ∧
      cs = { creates := createsOf c d
             updates := updatesOf c d
             deletes := deletesOf c d z
             no_changes := no_changesOf c d
             total_changes := (createsOf c d).length + (updatesOf c d).length
               + (deletesOf c d z).length } := by
  unfold analyze_changes
  cases h : _validate_zone_safety d z with
  | some e => simp [h]
  | none => simp [h, eq_comm]

end DnsRecords

namespace DnsRecords

theorem classify_partition_length (c d : List Record) :
    (createsOf c d).length + (updatesOf c d).length
      + (no_changesOf c d).length = d.length := by
  induction d with
  | nil => rfl
  | cons r d ih =>
    unfold createsOf updatesOf no_changesOf at ih ⊢
    rw [List.filter_cons, List.filter_cons, List.filter_cons]
    cases hk : desired_key_in_current c r <;>
      cases hf : (_find_existing_record c r.fqdn).isSome <;>
        (simp [hk, hf] at ih ⊢; omega)

theorem key_in_desired_implies_fqdn_in_desired (d : List Record)
    (r : Record) (h : (r.fqdn, r.ipv4) ∈ _records_to_set d) :
    _fqdn_in_desired r.fqdn d = true := by
  rcases (mem_records_to_set d (r.fqdn, r.ipv4)).mp h with ⟨dd, hdd, h1, _⟩
  have h1' : _normalize_fqdn dd.fqdn = r.fqdn := h1
  refine (fqdn_in_desired_iff r.fqdn d).mpr ⟨dd, hdd, ?_⟩
  rw [← h1', normalize_idem]

theorem deletesOf_eq_filter (c d : List Record) (z : Str) :
    deletesOf c d z = c.filter (fun r =>
      _is_in_zone r.fqdn z && !(_fqdn_in_desired r.fqdn d)) := by
  unfold deletesOf
  refine List.filter_congr (fun r _ => ?_)
  by_cases hF : _fqdn_in_desired r.fqdn d = true
  · simp [hF]
  · have hK : ((r.fqdn, r.ipv4) ∈ _records_to_set d) = False := by
      simp only [eq_iff_iff, iff_false]
      intro hmem
      exact hF (key_in_desired_implies_fqdn_in_desired d r hmem)
    simp [hF, hK]

/-- Claim C1 (amended): `_is_in_zone` normalizes only trailing dots and
returns `true` iff the normalized zone is a plain string suffix of the
normalized fqdn — no label-boundary check and no lowercasing — so
`'xzone'` against zone `'zone'` is accepted. -/
theorem claim_C1_amended (fqdn zone : Str) :
    _is_in_zone fqdn zone = true ↔
      ∃ s : Str, _normalize_fqdn fqdn = s ++ _normalize_fqdn zone := by
  unfold _is_in_zone pyEndsWith
  simp only [Bool.or_eq_true, decide_eq_true_eq]
  constructor
  · rintro (⟨t, ht⟩ | h)
    · exact ⟨t, ht.symm⟩
    · exact ⟨[], by simp [h]⟩
  · rintro ⟨s, hs⟩
    exact Or.inl ⟨s, hs.symm⟩

/-- Claim C1 counterexample: the claim says the zone membership check
returns `false` on fqdn `'xzone'` and zone `'zone'`; the code returns
`true` (plain `endswith`, no label boundary). -/
theorem claim_C1_counterexample :
    _is_in_zone "xzone".toList "zone".toList = true := by decide

/-- Claim C2 (amended): `total_changes` equals
`len(creates)+len(updates)+len(deletes)`, and the `no_changes` count plus
the creates and updates counts equals `len(desired)`; deletes come from
the current list, so `no_changes + total_changes` exceeds `len(desired)`
by `len(deletes)` rather than equalling it. -/
theorem claim_C2_amended (c d : List Record) (z : Str) (cs : ChangeSet)
    (h : analyze_changes c d z = .ok cs) :
    cs.total_changes
        = cs.creates.length + cs.updates.length + cs.deletes.length ∧
      cs.no_changes.length + (cs.creates.length + cs.updates.length)
        = d.length := by
  rcases (analyze_changes_ok_iff c d z cs).mp h with ⟨-, rfl⟩
  refine ⟨rfl, ?_⟩
  have hp := classify_partition_length c d
  dsimp only
  omega

theorem claim_C2_witness :
    analyze_changes [⟨"a.zone".toList, "1.1.1.1".toList⟩] [] "zone".toList
        = .ok ⟨[], [], [⟨"a.zone".toList, "1.1.1.1".toList⟩], [], 1⟩ ∧
      (⟨[], [], [⟨"a.zone".toList, "1.1.1.1".toList⟩], [], 1⟩
          : ChangeSet).total_changes = 0 + 0 + 1 ∧
      0 + (0 + 0) = ([] : List Record).length := by
  have h : analyze_changes [⟨"a.zone".toList, "1.1.1.1".toList⟩] []
      "zone".toList
      = .ok ⟨[], [], [⟨"a.zone".toList, "1.1.1.1".toList⟩], [], 1⟩ := by
    decide
  exact ⟨h, claim_C2_amended _ _ _ _ h⟩

/-- Claim C2 counterexample: with one in-zone current record and an empty
desired list the engine reports one delete, so
`no_changes + total_changes = 1 ≠ 0 = len(desired)`. -/
theorem claim_C2_counterexample :
    analyze_changes [⟨"a.zone".toList, "1.1.1.1".toList⟩] [] "zone".toList
        = .ok ⟨[], [], [⟨"a.zone".toList, "1.1.1.1".toList⟩], [], 1⟩ ∧
      ¬ ((⟨[], [], [⟨"a.zone".toList, "1.1.1.1".toList⟩], [], 1⟩
            : ChangeSet).no_changes.length
          + (⟨[], [], [⟨"a.zone".toList, "1.1.1.1".toList⟩], [], 1⟩
            : ChangeSet).total_changes
          = ([] : List Record).length) := by
  decide

end DnsRecords

namespace DnsRecords

theorem analyze_changes_error_iff (c d : List Record) (z e : Str) :
    analyze_changes c d z = .error e ↔
      _validate_zone_safety d z = some e := by
  unfold analyze_changes
  cases h : _validate_zone_safety d z with
  | some x => simp [h, eq_comm]
  | none => simp [h]

theorem raw_key_shares_fqdn (c : List Record) (r : Record)
    (h : ∃ cur ∈ c, _normalize_fqdn cur.fqdn = r.fqdn ∧ cur.ipv4 = r.ipv4) :
    ∃ cur ∈ c, _normalize_fqdn cur.fqdn = _normalize_fqdn r.fqdn := by
  rcases h with ⟨cur, hc, h1, -⟩
  exact ⟨cur, hc, by rw [← h1, normalize_idem]⟩

/-- Claim C5: a desired record outside the zone makes `analyze_changes`
fail with an error carrying the offending fqdn and no change set; when
every desired record is in the zone, no such error is raised. -/
theorem claim_C5 (c d : List Record) (z : Str) :
    ((∃ cs, analyze_changes c d z = .ok cs) ↔
        ∀ r ∈ d, _is_in_zone r.fqdn z = true) ∧
      ∀ e, analyze_changes c d z = .error e →
        ∃ r ∈ d, r.fqdn = e ∧ _is_in_zone r.fqdn z = false := by
  constructor
  · constructor
    · rintro ⟨cs, hcs⟩
      exact (validate_none_iff d z).mp
        ((analyze_changes_ok_iff c d z cs).mp hcs).1
    · intro hall
      exact ⟨_, (analyze_changes_ok_iff c d z _).mpr
        ⟨(validate_none_iff d z).mpr hall, rfl⟩⟩
  · intro e he
    exact validate_some_spec d z e
      ((analyze_changes_error_iff c d z e).mp he)

theorem claim_C5_witness :
    ∃ r ∈ [(⟨"b.other".toList, "2.2.2.2".toList⟩ : Record)],
      r.fqdn = "b.other".toList ∧
        _is_in_zone r.fqdn "zone".toList = false := by
  exact (claim_C5 [] [⟨"b.other".toList, "2.2.2.2".toList⟩]
    "zone".toList).2 "b.other".toList (by decide)

/-- Claim C6: a record placed by `analyze_changes` in any of the four
result lists is inside the zone; in particular a current record outside
the zone is never deleted (nor otherwise listed). -/
theorem claim_C6 (c d : List Record) (z : Str) (cs : ChangeSet)
    (h : analyze_changes c d z = .ok cs) (r : Record)
    (hr : r ∈ cs.creates ∨ r ∈ cs.updates ∨ r ∈ cs.deletes
      ∨ r ∈ cs.no_changes) :
    _is_in_zone r.fqdn z = true := by
  rcases (analyze_changes_ok_iff c d z cs).mp h with ⟨hv, rfl⟩
  have hall := (validate_none_iff d z).mp hv
  dsimp only at hr
  rcases hr with h1 | h1 | h1 | h1
  · exact hall r (List.mem_filter.mp h1).1
  · exact hall r (List.mem_filter.mp h1).1
  · rw [deletesOf_eq_filter] at h1
    have := (List.mem_filter.mp h1).2
    exact (Bool.and_eq_true _ _ |>.mp this).1
  · exact hall r (List.mem_filter.mp h1).1

theorem claim_C6_witness :
    _is_in_zone "a.zone".toList "zone".toList = true := by
  refine claim_C6 [⟨"a.zone".toList, "1.1.1.1".toList⟩] [] "zone".toList
    ⟨[], [], [⟨"a.zone".toList, "1.1.1.1".toList⟩], [], 1⟩ (by decide)
    ⟨"a.zone".toList, "1.1.1.1".toList⟩ ?_
  exact Or.inr (Or.inr (Or.inl (by decide)))

/-- Claim C8: an in-zone current record is deleted iff no desired record
shares its normalized fqdn; if its fqdn appears in desired (same or
different IP), it is never in the deletes list. -/
theorem claim_C8 (c d : List Record) (z : Str) (cs : ChangeSet)
    (h : analyze_changes c d z = .ok cs) (r : Record) (hr : r ∈ c) :
    r ∈ cs.deletes ↔
      (_is_in_zone r.fqdn z = true ∧
        ∀ dd ∈ d, _normalize_fqdn dd.fqdn ≠ _normalize_fqdn r.fqdn) := by
  rcases (analyze_changes_ok_iff c d z cs).mp h with ⟨-, rfl⟩
  dsimp only
  rw [deletesOf_eq_filter, List.mem_filter, and_iff_right hr,
    Bool.and_eq_true, Bool.not_eq_true']
  constructor
  · rintro ⟨hz, hF⟩
    refine ⟨hz, fun dd hdd heq => ?_⟩
    have : _fqdn_in_desired r.fqdn d = true :=
      (fqdn_in_desired_iff r.fqdn d).mpr ⟨dd, hdd, heq⟩
    rw [hF] at this
    cases this
  · rintro ⟨hz, hall⟩
    refine ⟨hz, ?_⟩
    cases hF : _fqdn_in_desired r.fqdn d with
    | false => rfl
    | true =>
      rcases (fqdn_in_desired_iff r.fqdn d).mp hF with ⟨dd, hdd, heq⟩
      exact absurd heq (hall dd hdd)

theorem claim_C8_witness :
    (⟨"a.zone".toList, "1.1.1.1".toList⟩ : Record) ∈
      (⟨[], [], [⟨"a.zone".toList, "1.1.1.1".toList⟩], [], 1⟩
        : ChangeSet).deletes := by
  refine (claim_C8 [⟨"a.zone".toList, "1.1.1.1".toList⟩] [] "zone".toList
    ⟨[], [], [⟨"a.zone".toList, "1.1.1.1".toList⟩], [], 1⟩ (by decide)
    ⟨"a.zone".toList, "1.1.1.1".toList⟩ (by decide)).mpr ?_
  exact ⟨by decide, by simp⟩

/-- Claim C7 (amended): with the raw-key probe of line 60, a desired
record is unchanged iff its raw fqdn (no normalization) equals the
normalized fqdn of some current record with the same IP; it is an update
iff it is not unchanged but some current record shares its normalized
fqdn; it is a create iff no current record shares its normalized fqdn;
and the three lists partition the desired list. -/
theorem claim_C7_amended (c d : List Record) (z : Str) (cs : ChangeSet)
    (h : analyze_changes c d z = .ok cs) :
    (∀ r ∈ d,
      (r ∈ cs.no_changes ↔
          ∃ cur ∈ c, _normalize_fqdn cur.fqdn = r.fqdn ∧ cur.ipv4 = r.ipv4)
        ∧ (r ∈ cs.updates ↔
            (¬ ∃ cur ∈ c,
                _normalize_fqdn cur.fqdn = r.fqdn ∧ cur.ipv4 = r.ipv4)
              ∧ ∃ cur ∈ c,
                  _normalize_fqdn cur.fqdn = _normalize_fqdn r.fqdn)
        ∧ (r ∈ cs.creates ↔
            ¬ ∃ cur ∈ c,
                _normalize_fqdn cur.fqdn = _normalize_fqdn r.fqdn))
      ∧ cs.creates.length + cs.updates.length + cs.no_changes.length
          = d.length := by
  rcases (analyze_changes_ok_iff c d z cs).mp h with ⟨-, rfl⟩
  dsimp only
  refine ⟨fun r hr => ?_, classify_partition_length c d⟩
  have hmemN : r ∈ no_changesOf c d ↔
      desired_key_in_current c r = true := by
    unfold no_changesOf
    rw [List.mem_filter, and_iff_right hr]
  have hmemU : r ∈ updatesOf c d ↔
      (desired_key_in_current c r = false
        ∧ (_find_existing_record c r.fqdn).isSome = true) := by
    unfold updatesOf
    rw [List.mem_filter, and_iff_right hr, Bool.and_eq_true,
      Bool.not_eq_true']
  have hmemC : r ∈ createsOf c d ↔
      (desired_key_in_current c r = false
        ∧ (_find_existing_record c r.fqdn).isSome = false) := by
    unfold createsOf
    rw [List.mem_filter, and_iff_right hr, Bool.and_eq_true,
      Bool.not_eq_true', Bool.not_eq_true']
  refine ⟨?_, ?_, ?_⟩
  · rw [hmemN, desired_key_in_current_iff]
  · rw [hmemU]
    constructor
    · rintro ⟨hk, hs⟩
      refine ⟨fun hraw => ?_, (find_existing_isSome_iff c r.fqdn).mp hs⟩
      have := (desired_key_in_current_iff c r).mpr hraw
      rw [hk] at this
      cases this
    · rintro ⟨hraw, hsh⟩
      refine ⟨?_, (find_existing_isSome_iff c r.fqdn).mpr hsh⟩
      cases hK : desired_key_in_current c r with
      | false => rfl
      | true => exact absurd ((desired_key_in_current_iff c r).mp hK) hraw
  · rw [hmemC]
    constructor
    · rintro ⟨hk, hs⟩ hsh
      have := (find_existing_isSome_iff c r.fqdn).mpr hsh
      rw [hs] at this
      cases this
    · intro hsh
      constructor
      · cases hK : desired_key_in_current c r with
        | false => rfl
        | true =>
          exact absurd (raw_key_shares_fqdn c r
            ((desired_key_in_current_iff c r).mp hK)) hsh
      · cases hS : (_find_existing_record c r.fqdn).isSome with
        | false => rfl
        | true => exact absurd ((find_existing_isSome_iff c r.fqdn).mp hS) hsh

theorem claim_C7_witness :
    (⟨"a.zone".toList, "2.2.2.2".toList⟩ : Record) ∈
      (⟨[], [⟨"a.zone".toList, "2.2.2.2".toList⟩], [], [], 1⟩
        : ChangeSet).updates := by
  refine (((claim_C7_amended [⟨"a.zone".toList, "1.1.1.1".toList⟩]
    [⟨"a.zone".toList, "2.2.2.2".toList⟩] "zone".toList
    ⟨[], [⟨"a.zone".toList, "2.2.2.2".toList⟩], [], [], 1⟩ (by decide)).1
    ⟨"a.zone".toList, "2.2.2.2".toList⟩ (by decide)).2.1).mpr ?_
  constructor
  · rintro ⟨cur, hc, -, hip⟩
    simp at hc
    rw [hc] at hip
    exact absurd hip (by decide)
  · exact ⟨⟨"a.zone".toList, "1.1.1.1".toList⟩, by decide⟩

/-- Claim C7 counterexample: the claim classifies a desired record as
unchanged when its normalized pair occurs in current, but the code probes
the raw key, so identical records written with a trailing dot are
classified as an update instead of unchanged. -/
theorem claim_C7_counterexample :
    analyze_changes [⟨"a.zone.".toList, "1.1.1.1".toList⟩]
        [⟨"a.zone.".toList, "1.1.1.1".toList⟩] "zone".toList =
      .ok ⟨[], [⟨"a.zone.".toList, "1.1.1.1".toList⟩], [], [], 1⟩ ∧
      _normalize_fqdn "a.zone.".toList = _normalize_fqdn "a.zone.".toList ∧
      (⟨[], [⟨"a.zone.".toList, "1.1.1.1".toList⟩], [], [], 1⟩
          : ChangeSet).no_changes = [] := by
  decide

end DnsRecords

namespace DnsRecords

theorem rowError_eq_none_iff (all : List Record) (row : Nat) (r : Record) :
    rowError all row r = none ↔
      ((pyStrip r.fqdn).isEmpty || (pyStrip r.ipv4).isEmpty) = false ∧
        (all.filter (fun x =>
          decide (_normalize_fqdn x.fqdn = _normalize_fqdn r.fqdn))).length
          ≤ 1 := by
  unfold rowError
  by_cases h1 : ((pyStrip r.fqdn).isEmpty || (pyStrip r.ipv4).isEmpty) = true
  · simp [h1]
  · rw [Bool.not_eq_true] at h1
    by_cases h2 : (all.filter (fun x =>
        decide (_normalize_fqdn x.fqdn = _normalize_fqdn r.fqdn))).length > 1
    · simp [h1, h2]
      try omega
    · simp [h1, h2]
      try omega

theorem validateAux_eq_nil_iff (all : List Record) (row : Nat)
    (l : List Record) :
    validateAux all row l = [] ↔
      ∀ r ∈ l,
        ((pyStrip r.fqdn).isEmpty || (pyStrip r.ipv4).isEmpty) = false ∧
          (all.filter (fun x =>
            decide (_normalize_fqdn x.fqdn = _normalize_fqdn r.fqdn))).length
            ≤ 1 := by
  induction l generalizing row with
  | nil => simp [validateAux]
  | cons r l ih =>
    unfold validateAux
    rw [List.append_eq_nil]
    constructor
    · rintro ⟨h1, h2⟩
      intro x hx
      rcases List.mem_cons.mp hx with rfl | hx
      · have : rowError all row x = none := by
          cases he : rowError all row x with
          | none => rfl
          | some e => rw [he] at h1; cases h1
        exact (rowError_eq_none_iff all row x).mp this
      · exact ((ih (row + 1)).mp h2) x hx
    · intro hall
      refine ⟨?_, (ih (row + 1)).mpr
        (fun x hx => hall x (List.mem_cons.mpr (Or.inr hx)))⟩
      have := (rowError_eq_none_iff all row r).mpr (hall r (List.mem_cons_self r l))
      rw [this]
      rfl

/-- Claim C4 (amended): `analyze_changes` performs no duplicate check
and still produces a change set when two desired records share a
normalized fqdn; duplicates are reported only by the separate
`validate_csv_structure` method, which returns a non-empty error list
but is not invoked by `analyze_changes`. -/
theorem claim_C4_amended (current l₁ l₂ l₃ : List Record) (d₁ d₂ : Record)
    (zone : Str)
    (hfq : _normalize_fqdn d₁.fqdn = _normalize_fqdn d₂.fqdn)
    (hz : ∀ r ∈ l₁ ++ d₁ :: l₂ ++ d₂ :: l₃,
      _is_in_zone r.fqdn zone = true) :
    (∃ cs, analyze_changes current (l₁ ++ d₁ :: l₂ ++ d₂ :: l₃) zone
        = .ok cs)
      ∧ validate_csv_structure (l₁ ++ d₁ :: l₂ ++ d₂ :: l₃) ≠ [] := by
  constructor
  · exact ⟨_, (analyze_changes_ok_iff current _ zone _).mpr
      ⟨(validate_none_iff _ zone).mpr hz, rfl⟩⟩
  · intro hnil
    unfold validate_csv_structure at hnil
    have hd₁ : d₁ ∈ l₁ ++ d₁ :: l₂ ++ d₂ :: l₃ := by simp
    have := ((validateAux_eq_nil_iff _ 2 _).mp hnil d₁ hd₁).2
    have hcount : ((l₁ ++ d₁ :: l₂ ++ d₂ :: l₃).filter (fun x =>
        decide (_normalize_fqdn x.fqdn = _normalize_fqdn d₁.fqdn))).length
        ≥ 2 := by
      rw [List.filter_append, List.filter_cons, List.filter_append,
        List.filter_cons, if_pos (show decide (_normalize_fqdn d₁.fqdn
            = _normalize_fqdn d₁.fqdn) = true by simp),
        if_pos (show decide (_normalize_fqdn d₂.fqdn
            = _normalize_fqdn d₁.fqdn) = true by simp [hfq])]
      simp
      omega
    omega

theorem claim_C4_witness :
    (∃ cs, analyze_changes []
        ([] ++ (⟨"a.zone".toList, "1.1.1.1".toList⟩ : Record)
          :: [] ++ (⟨"a.zone".toList, "2.2.2.2".toList⟩ : Record) :: [])
        "zone".toList = .ok cs)
      ∧ validate_csv_structure
          ([] ++ (⟨"a.zone".toList, "1.1.1.1".toList⟩ : Record)
            :: [] ++ (⟨"a.zone".toList, "2.2.2.2".toList⟩ : Record) :: [])
          ≠ [] := by
  exact claim_C4_amended [] [] [] []
    ⟨"a.zone".toList, "1.1.1.1".toList⟩
    ⟨"a.zone".toList, "2.2.2.2".toList⟩ "zone".toList (by decide)
    (by decide)

/-- Claim C4 counterexample: two desired records with the same normalized
fqdn are not rejected — `analyze_changes` returns a change set that
classifies both. -/
theorem claim_C4_counterexample :
    analyze_changes []
        [⟨"a.zone".toList, "1.1.1.1".toList⟩,
         ⟨"a.zone".toList, "2.2.2.2".toList⟩] "zone".toList =
      .ok ⟨[⟨"a.zone".toList, "1.1.1.1".toList⟩,
            ⟨"a.zone".toList, "2.2.2.2".toList⟩], [], [], [], 2⟩ := by
  decide

theorem applyLoop_eq_countP (op : Str → Record → Bool) (zone : Str)
    (records : List Record) (start : Nat) :
    applyLoop op zone records start = start + records.countP (op zone) := by
  induction records generalizing start with
  | nil => simp [applyLoop]
  | cons r l ih =>
    unfold applyLoop at ih ⊢
    rw [List.foldl_cons, List.countP_cons]
    by_cases h : op zone r = true
    · rw [if_pos h, ih, h]
      simp
      omega
    · rw [if_neg h, ih]
      rw [Bool.not_eq_true] at h
      rw [h]
      simp

/-- Claim C9: `_apply_changes` attempts every operation of the change set
in the fixed order creates, updates, deletes (the list `attempted_ops`);
an individual failure never removes later operations from that list, and
the returned result is `true` iff the number of operations on which the
provider succeeded equals the change set's `total_changes`. -/
theorem claim_C9 (client : DnsClient) (changes : ChangeSet) (zone : Str) :
    (_apply_changes client changes zone = true ↔
        (attempted_ops changes).countP (execOp client zone)
          = changes.total_changes)
      ∧ (attempted_ops changes).length
          = changes.creates.length + changes.updates.length
            + changes.deletes.length := by
  have hc : (execOp client zone ∘ DnsOp.create)
      = client.create_record zone := rfl
  have hu : (execOp client zone ∘ DnsOp.update)
      = client.update_record zone := rfl
  have hd : (execOp client zone ∘ DnsOp.delete)
      = client.delete_record zone := rfl
  constructor
  · unfold _apply_changes attempted_ops
    simp only [applyLoop_eq_countP, List.countP_append, List.countP_map,
      hc, hu, hd, beq_iff_eq]
    omega
  · unfold attempted_ops
    simp
    omega

end DnsRecords

namespace DnsRecords

theorem matchSerialAt_decomp (cs : Str) (m : SerialMatch) (rest : Str)
    (h : matchSerialAt cs = some (m, rest)) :
    cs = m.g1 ++ m.digits ++ m.g3 ++ rest ∧ m.g1 ≠ [] := by
  unfold matchSerialAt at h
  by_cases h1 : (cs.takeWhile pyIsSpace).isEmpty
  · simp only [h1, if_true] at h
    cases h
  · simp only [h1, if_false, Bool.false_eq_true] at h
    by_cases h2 :
        ((cs.dropWhile pyIsSpace).takeWhile isAsciiDigit).length = 10
    · simp only [h2, if_true] at h
      by_cases h3 :
          (((cs.dropWhile pyIsSpace).dropWhile
            isAsciiDigit).takeWhile pyIsSpace).isEmpty
      · simp only [h3, if_true] at h
        cases h
      · simp only [h3, if_false, Bool.false_eq_true] at h
        by_cases h4 :
            (((cs.dropWhile pyIsSpace).dropWhile
              isAsciiDigit).dropWhile pyIsSpace).take serialComment.length
              = serialComment
        · simp only [h4, if_true, Option.some_inj, Prod.mk.injEq] at h
          obtain ⟨rfl, rfl⟩ := h
          constructor
          · conv_lhs => rw [← List.takeWhile_append_dropWhile
              (p := pyIsSpace) (l := cs)]
            conv_lhs => rw [← List.takeWhile_append_dropWhile
              (p := isAsciiDigit) (l := cs.dropWhile pyIsSpace)]
            conv_lhs => rw [← List.takeWhile_append_dropWhile
              (p := pyIsSpace)
              (l := (cs.dropWhile pyIsSpace).dropWhile isAsciiDigit)]
            conv_lhs => rw [← List.take_append_drop serialComment.length
              (((cs.dropWhile pyIsSpace).dropWhile
                isAsciiDigit).dropWhile pyIsSpace), h4]
            simp [List.append_assoc]
          · intro hnil
            dsimp only at hnil
            rw [hnil] at h1
            exact h1 rfl
        · simp only [h4, if_false] at h
          cases h
    · simp only [h2, if_false] at h
      cases h

theorem findSerial_decomp (cs : Str) :
    ∀ p m rest, findSerial cs = some (p, m, rest) →
      cs = p ++ m.g1 ++ m.digits ++ m.g3 ++ rest ∧ m.g1 ≠ [] := by
  induction cs with
  | nil =>
    intro p m rest h
    rw [show findSerial [] = none from rfl] at h
    cases h
  | cons c ct ih =>
    intro p m rest h
    unfold findSerial at h
    cases hm : matchSerialAt (c :: ct) with
    | some pr =>
      obtain ⟨m0, after⟩ := pr
      rw [hm] at h
      simp only [Option.some_inj, Prod.mk.injEq] at h
      obtain ⟨rfl, rfl, rfl⟩ := h
      rcases matchSerialAt_decomp _ _ _ hm with ⟨hdec, hg⟩
      exact ⟨by simpa using hdec, hg⟩
    | none =>
      rw [hm] at h
      cases hf : findSerial ct with
      | none => rw [hf] at h; cases h
      | some found =>
        obtain ⟨p0, m0, rest0⟩ := found
        rw [hf] at h
        simp only [Option.map_some, Option.some_inj, Prod.mk.injEq] at h
        obtain ⟨rfl, rfl, rfl⟩ := h
        rcases ih p0 m0 rest0 hf with ⟨hdec, hg⟩
        refine ⟨?_, hg⟩
        dsimp only
        simp [hdec, List.append_assoc]

theorem subSerialFuel_no_match (new_serial : Str) (cs : Str)
    (h : findSerial cs = none) (fuel : Nat) :
    subSerialFuel new_serial fuel cs = cs := by
  cases fuel with
  | zero => rfl
  | succ k => unfold subSerialFuel; rw [h]

/-- Claim C10 (amended): when the pattern does not match, the content is
returned unmodified; when it matches exactly once, the matched ten-digit
number is rewritten to its value plus one (unpadded decimal) and the rest
of the file content is unchanged.  (When the pattern matches more than
once, the code rewrites every match to the first match's value plus one,
which the original claim does not allow.) -/
theorem claim_C10_amended (content : Str) :
    (findSerial content = none → _increment_serial content = content)
      ∧ ∀ p m rest, findSerial content = some (p, m, rest) →
          findSerial rest = none →
          content = p ++ m.g1 ++ m.digits ++ m.g3 ++ rest ∧
            _increment_serial content
              = p ++ m.g1 ++ Nat.toDigits 10 (digitsToNat m.digits + 1)
                ++ m.g3 ++ rest := by
  constructor
  · intro h
    unfold _increment_serial
    rw [h]
  · intro p m rest h hrest
    rcases findSerial_decomp content p m rest h with ⟨hdec, hg1⟩
    refine ⟨hdec, ?_⟩
    unfold _increment_serial
    rw [h]
    have hpos : 0 < content.length := by
      cases hc : content with
      | nil =>
        rw [hc] at hdec
        have := hdec.symm
        simp [List.append_eq_nil] at this
        exact absurd this.2.1 hg1
      | cons a l => simp
    rw [show content.length = (content.length - 1) + 1 by omega]
    unfold subSerialFuel
    rw [h]
    dsimp only
    rw [subSerialFuel_no_match _ _ hrest]

/-- Claim C10 counterexample: with two occurrences of the serial pattern
the code rewrites both numbers to the first one's value plus one, so the
rest of the file content is not left unchanged. -/
theorem claim_C10_counterexample :
    _increment_serial
        "x 1111111111 ; serial\ny 2222222222 ; serial".toList =
      "x 1111111112 ; serial\ny 1111111112 ; serial".toList ∧
      "x 1111111112 ; serial\ny 1111111112 ; serial".toList ≠
        "x 1111111112 ; serial\ny 2222222222 ; serial".toList := by
  decide

theorem claim_C10_witness :
    "soa 1234567890 ; serial\nrest".toList =
        "soa".toList ++ " ".toList ++ "1234567890".toList
          ++ " ; serial".toList ++ "\nrest".toList ∧
      _increment_serial "soa 1234567890 ; serial\nrest".toList
        = "soa".toList ++ " ".toList
          ++ Nat.toDigits 10 (digitsToNat "1234567890".toList + 1)
          ++ " ; serial".toList ++ "\nrest".toList := by
  exact (claim_C10_amended "soa 1234567890 ; serial\nrest".toList).2
    "soa".toList ⟨" ".toList, "1234567890".toList, " ; serial".toList⟩
    "\nrest".toList (by decide) (by decide)

end DnsRecords

namespace DnsRecords

/-- Two records that agree up to fqdn normalization (same ipv4, same
normalized fqdn — e.g. the same name with or without a trailing dot). -/
def SameNorm (a b : Record) : Prop :=
  _normalize_fqdn a.fqdn = _normalize_fqdn b.fqdn ∧ a.ipv4 = b.ipv4

theorem records_to_set_congr (c c' : List Record)
    (h : List.Forall₂ SameNorm c c') :
    _records_to_set c = _records_to_set c' := by
  induction h with
  | nil => rfl
  | @cons a b l l' hab htail ih =>
    unfold _records_to_set at ih ⊢
    rw [List.map_cons, List.map_cons, hab.1, hab.2, ih]

theorem find_existing_isSome_congr (c c' : List Record) (f : Str)
    (h : List.Forall₂ SameNorm c c') :
    (_find_existing_record c f).isSome
      = (_find_existing_record c' f).isSome := by
  induction h with
  | nil => rfl
  | @cons a b l l' hab htail ih =>
    unfold _find_existing_record at ih ⊢
    by_cases hp : _normalize_fqdn a.fqdn = _normalize_fqdn f
    · rw [List.find?_cons_of_pos _ (by simp [hp]),
        List.find?_cons_of_pos _ (by simp [← hab.1, hp])]
      rfl
    · rw [List.find?_cons_of_neg _ (by simp [hp]),
        List.find?_cons_of_neg _ (by simp [← hab.1, hp])]
      exact ih

theorem is_in_zone_congr (a b z z' : Str)
    (h1 : _normalize_fqdn a = _normalize_fqdn b)
    (h2 : _normalize_fqdn z = _normalize_fqdn z') :
    _is_in_zone a z = _is_in_zone b z' := by
  unfold _is_in_zone
  rw [h1, h2]

theorem fqdn_in_desired_congr (f f' : Str) (d : List Record)
    (h : _normalize_fqdn f = _normalize_fqdn f') :
    _fqdn_in_desired f d = _fqdn_in_desired f' d := by
  unfold _fqdn_in_desired
  rw [h]

theorem forall2_filter_congr (p q : Record → Bool) (l l' : List Record)
    (h : List.Forall₂ SameNorm l l')
    (hpq : ∀ a b, SameNorm a b → p a = q b) :
    List.Forall₂ SameNorm (l.filter p) (l'.filter q) := by
  induction h with
  | nil => exact List.Forall₂.nil
  | @cons a b l l' hab htail ih =>
    rw [List.filter_cons, List.filter_cons]
    by_cases hp : p a = true
    · rw [if_pos hp, if_pos ((hpq a b hab) ▸ hp)]
      exact List.Forall₂.cons hab ih
    · rw [if_neg hp, if_neg ((hpq a b hab) ▸ hp)]
      exact ih

/-- Claim C3 (amended): fqdn comparison normalizes only trailing dots, not
case.  The classification is invariant under trailing-dot (normalization
preserving) variants of the current records and of the zone: creates,
updates and no_changes are unchanged record lists, deletes correspond
pointwise up to normalization, and the total is identical.  (Case
variants, and trailing-dot variants of desired fqdns, can change the
classification, as the counterexample shows.) -/
theorem claim_C3_amended (current current' desired : List Record)
    (zone zone' : Str) (cs : ChangeSet)
    (hrel : List.Forall₂ SameNorm current current')
    (hz : _normalize_fqdn zone = _normalize_fqdn zone')
    (h : analyze_changes current desired zone = .ok cs) :
    ∃ cs', analyze_changes current' desired zone' = .ok cs' ∧
      cs'.creates = cs.creates ∧ cs'.updates = cs.updates ∧
      cs'.no_changes = cs.no_changes ∧
      cs'.total_changes = cs.total_changes ∧
      List.Forall₂ SameNorm cs.deletes cs'.deletes := by
  rcases (analyze_changes_ok_iff current desired zone cs).mp h with ⟨hv, rfl⟩
  have hset : _records_to_set current' = _records_to_set current :=
    (records_to_set_congr current current' hrel).symm
  have hkey : ∀ r : Record,
      desired_key_in_current current' r = desired_key_in_current current r := by
    intro r
    unfold desired_key_in_current
    rw [hset]
  have hfind : ∀ f : Str,
      (_find_existing_record current' f).isSome
        = (_find_existing_record current f).isSome :=
    fun f => (find_existing_isSome_congr current current' f hrel).symm
  have hc : createsOf current' desired = createsOf current desired := by
    unfold createsOf
    exact List.filter_congr (fun r _ => by rw [hkey r, hfind r.fqdn])
  have hu : updatesOf current' desired = updatesOf current desired := by
    unfold updatesOf
    exact List.filter_congr (fun r _ => by rw [hkey r, hfind r.fqdn])
  have hn : no_changesOf current' desired = no_changesOf current desired := by
    unfold no_changesOf
    exact List.filter_congr (fun r _ => by rw [hkey r])
  have hv' : _validate_zone_safety desired zone' = none := by
    refine (validate_none_iff desired zone').mpr (fun r hr => ?_)
    rw [← is_in_zone_congr r.fqdn r.fqdn zone zone' rfl hz]
    exact (validate_none_iff desired zone).mp hv r hr
  have hdel : List.Forall₂ SameNorm (deletesOf current desired zone)
      (deletesOf current' desired zone') := by
    rw [deletesOf_eq_filter, deletesOf_eq_filter]
    refine forall2_filter_congr _ _ current current' hrel ?_
    intro a b hab
    rw [is_in_zone_congr a.fqdn b.fqdn zone zone' hab.1 hz,
      fqdn_in_desired_congr a.fqdn b.fqdn desired hab.1]
  refine ⟨_, (analyze_changes_ok_iff current' desired zone' _).mpr
    ⟨hv', rfl⟩, ?_, ?_, ?_, ?_, ?_⟩
  · exact hc
  · exact hu
  · exact hn
  · dsimp only
    rw [hc, hu, hdel.length_eq]
  · exact hdel

theorem claim_C3_witness :
    ∃ cs', analyze_changes [⟨"a.zone.".toList, "1.1.1.1".toList⟩]
        [⟨"a.zone".toList, "1.1.1.1".toList⟩] "zone.".toList = .ok cs' ∧
      cs'.creates = (⟨[], [], [], [⟨"a.zone".toList, "1.1.1.1".toList⟩], 0⟩
        : ChangeSet).creates ∧
      cs'.updates = (⟨[], [], [], [⟨"a.zone".toList, "1.1.1.1".toList⟩], 0⟩
        : ChangeSet).updates ∧
      cs'.no_changes =
        (⟨[], [], [], [⟨"a.zone".toList, "1.1.1.1".toList⟩], 0⟩
          : ChangeSet).no_changes ∧
      cs'.total_changes =
        (⟨[], [], [], [⟨"a.zone".toList, "1.1.1.1".toList⟩], 0⟩
          : ChangeSet).total_changes ∧
      List.Forall₂ SameNorm
        (⟨[], [], [], [⟨"a.zone".toList, "1.1.1.1".toList⟩], 0⟩
          : ChangeSet).deletes cs'.deletes := by
  refine claim_C3_amended [⟨"a.zone".toList, "1.1.1.1".toList⟩]
    [⟨"a.zone.".toList, "1.1.1.1".toList⟩]
    [⟨"a.zone".toList, "1.1.1.1".toList⟩] "zone".toList "zone.".toList
    ⟨[], [], [], [⟨"a.zone".toList, "1.1.1.1".toList⟩], 0⟩
    (List.Forall₂.cons ⟨by decide, by decide⟩ List.Forall₂.nil)
    (by decide) (by decide)

/-- Claim C3 counterexample: replacing a desired fqdn by a variant that
differs only in letter case changes the classification — `'a.zone'`
against current `'a.zone'` is unchanged, while `'A.zone'` becomes a
create and the current record becomes a delete — because
`_normalize_fqdn` strips trailing dots but never lowercases. -/
theorem claim_C3_counterexample :
    analyze_changes [⟨"a.zone".toList, "1.1.1.1".toList⟩]
        [⟨"a.zone".toList, "1.1.1.1".toList⟩] "zone".toList =
      .ok ⟨[], [], [], [⟨"a.zone".toList, "1.1.1.1".toList⟩], 0⟩ ∧
      analyze_changes [⟨"a.zone".toList, "1.1.1.1".toList⟩]
        [⟨"A.zone".toList, "1.1.1.1".toList⟩] "zone".toList =
      .ok ⟨[⟨"A.zone".toList, "1.1.1.1".toList⟩], [],
        [⟨"a.zone".toList, "1.1.1.1".toList⟩], [], 2⟩ := by
  decide

end DnsRecords
